import Mathlib

/-!
Verification of the blastfurnace compiler front-end core: the AST node model
(`compiler/ast/src/ast.rs`), the visitor/traversal protocol
(`compiler/blastf_ast/src/visitor.rs`), and the path/name model
(`compiler/blastf_name/src/module.rs`, `compiler/blastf_name/src/name.rs`,
`compiler/name/src/module_path.rs`).

The traversal engine is embedded as pure state-passing functions.  A visitor
is a single `apply` function over the tagged node union, threading its own
mutable state `σ` (the Rust visitor's `&mut self`) and returning
`Result<(bool, Option<K>), V>`.  Each `visit` implementation additionally
returns the ghost list of `apply` events it performed (the node presented to
`apply` together with `apply`'s answer), so that propositions about which
nodes were applied, and in which order, can be stated.  In-place rewriting of
the node by the visitor is not modelled: a visitor that regrows children
while the walk is inside them makes the source recursion itself unbounded,
and none of the properties below concern node rewriting.
-/

namespace Ast

/-- An identifier, `type Ident = String` in the source. -/
abbrev Ident := String

/-- A segment of a path, `foo` in `root::foo::Bar`. -/
structure PathSegment where
  ident : Ident

/-- A "name", e.g. `root::foo::Bar`: segments separated by `::`. -/
structure Path where
  segments : List PathSegment

/-- The various kinds of types the compiler recognizes. -/
inductive TyKind where
  | void
  | int
  | float
  | bool
  | string
  | path (p : Path)

/-- A type. -/
structure Ty where
  kind : TyKind

/-- A struct field, e.g. `foo: bar` in `struct Foo { foo: bar }`. -/
structure StructField where
  ident : Ident
  ty : Ty

/-- A struct definition.  The source names the field list `field`. -/
structure Struct where
  field : List StructField

/-- A function parameter.  The `P<Ty>` box is ownership-only indirection. -/
structure Param where
  ty : Ty

/-- A function header, e.g. `const rec fn`.  `rec` is a Lean keyword, so the
first flag is named `rec_` here. -/
structure FnHeader where
  rec_ : Bool
  constness : Bool

/-- Signature of the function declaration, e.g. `fn foo(bar: baz) -> qux`. -/
structure FnDecl where
  inputs : List Param
  output : Ty

/-- A function's signature: header plus declaration. -/
structure FnSig where
  header : FnHeader
  decl : FnDecl

/-- The various kinds of constants, e.g. `5`, `5.0`, `true`, `"foo"`. -/
inductive ConstantKind where
  | int (n : Int)
  | float (x : Float)
  | bool (b : Bool)
  | string (s : String)

/-- A constant. -/
structure Constant where
  kind : ConstantKind

mutual

/-- A definition (`struct` or `fn`): an identifier and a kind. -/
inductive Definition where
  | mk (ident : Ident) (kind : DefinitionKind)

/-- The kinds of definitions: a struct or a (boxed) function. -/
inductive DefinitionKind where
  | struct (s : Struct)
  | fn (f : Fn)

/-- A function definition: a signature and an optional body. -/
inductive Fn where
  | mk (sig : FnSig) (body : Option Block)

/-- An expression. -/
inductive Expr where
  | mk (kind : ExprKind)

/-- The kinds of expressions.  `Variable` holds a path. -/
inductive ExprKind where
  | variable_ (p : Path)
  | constant (c : Constant)
  | block (b : Block)

/-- A local variable binding, `let x;` or `let x = e;`. -/
inductive LocalBind where
  | mk (ident : Ident) (ty : Option Ty) (kind : LocalBindKind)

/-- The kinds of local bindings: plain declaration, or with an initializer. -/
inductive LocalBindKind where
  | decl
  | init (e : Expr)

/-- A statement. -/
inductive Statement where
  | mk (kind : StatementKind)

/-- The kinds of statements: a let binding, a nested definition, or an
expression. -/
inductive StatementKind where
  | let_ (l : LocalBind)
  | def_ (d : Definition)
  | expr (e : Expr)

/-- A block `{ ... }`: a sequence of statements. -/
inductive Block where
  | mk (stmts : List Statement)

end

/-- The tagged union over every node kind, `ASTNodeEnum` in the source
(there it holds `&'a mut` references; here the node value itself). -/
inductive ASTNodeEnum where
  | ident (i : Ident)
  | path (p : Path)
  | pathSegment (s : PathSegment)
  | definition (d : Definition)
  | ty (t : Ty)
  | struct (s : Struct)
  | structField (f : StructField)
  | fn (f : Fn)
  | fnSig (s : FnSig)
  | fnHeader (h : FnHeader)
  | fnDecl (d : FnDecl)
  | param (p : Param)
  | expr (e : Expr)
  | constant (c : Constant)
  | localBind (l : LocalBind)
  | statement (s : Statement)
  | block (b : Block)

/-- The result of one `apply` call: `Result<(bool, Option<K>), V>`.  The
boolean says whether to visit the children; `K` is the optional payload
returned to the parent; `V` is the error type. -/
abbrev GenericVisitApplyResult (K V : Type) := Except V (Bool × Option K)

/-- Output of one `apply` call: the visitor's updated own state and the
`Result` it returned. -/
structure ApplyOut (σ K V : Type) where
  state : σ
  res : GenericVisitApplyResult K V

/-- A visitor: its single `apply` operation, threading its own state `σ`
(the `&mut self` of the Rust trait object). -/
structure Visitor (σ K V : Type) where
  apply : σ → ASTNodeEnum → ApplyOut σ K V

/-- The `apply` every visitor starts from unless it overrides it:
`Ok((true, None))`, touching nothing. -/
def defaultApply (σ K V : Type) : σ → ASTNodeEnum → ApplyOut σ K V :=
  fun s _ => ⟨s, Except.ok (true, none)⟩

/-- One recorded `apply` event: the node as presented to `apply`, and the
result `apply` returned for it. -/
abbrev VisitEvent (K V : Type) := ASTNodeEnum × GenericVisitApplyResult K V

/-- Output of one `visit` call: the visitor state afterwards, the ghost list
of `apply` events performed (in order), and the `Result<Option<K>, V>` that
`visit` returned. -/
structure VisitOut (σ K V : Type) where
  state : σ
  events : List (VisitEvent K V)
  res : Except V (Option K)

/-- The child-visiting part of a `visit` body: state afterwards, events
performed, and either success (child payloads are discarded by `child.visit(visitor)?;`)
or the first child failure. -/
abbrev Phase (σ K V : Type) := σ × List (VisitEvent K V) × Except V Unit

/-- Use a completed child `visit` as one step of the parent's child phase:
the payload is discarded, an error is kept. -/
def VisitOut.phase (o : VisitOut σ K V) : Phase σ K V :=
  (o.state, o.events, match o.res with
    | .error e => .error e
    | .ok _ => .ok ())

/-- Sequence two child phases: the second runs only if the first succeeded
(the `?` operator after each child visit). -/
def phaseThen (p : Phase σ K V) (f : σ → Phase σ K V) : Phase σ K V :=
  match p with
  | (s, evs, .error e) => (s, evs, .error e)
  | (s, evs, .ok _) =>
    match f s with
    | (s₂, evs₂, r) => (s₂, evs ++ evs₂, r)

/-- The empty child phase (a node with nothing to recurse into). -/
def phaseDone (s : σ) : Phase σ K V := (s, [], Except.ok ())

/-- Visit each element of a child list in order, stopping at the first
failure: the `for child in ... { child.visit(visitor)?; }` loop. -/
def visitList (visitOne : α → σ → VisitOut σ K V) : List α → σ → Phase σ K V
  | [], s => phaseDone s
  | x :: xs, s => phaseThen (visitOne x s).phase (fun s₂ => visitList visitOne xs s₂)

/-- The leaf `visit` body: `Ok(visitor.apply(node)?.1)` — apply, propagate a
failure, otherwise return the payload, ignoring the children flag. -/
def leafVisit (n : ASTNodeEnum) (v : Visitor σ K V) (s : σ) : VisitOut σ K V :=
  let a := v.apply s n
  ⟨a.state, [(n, a.res)], a.res.map (·.2)⟩

/-- The composite `visit` body: apply to self; on failure propagate it with
no children visited; on `(true, res)` run the child phase and propagate its
failure, else return `res`; on `(false, res)` skip the children and return
`res`. -/
def nodeVisit (n : ASTNodeEnum) (v : Visitor σ K V) (s : σ)
    (children : σ → Phase σ K V) : VisitOut σ K V :=
  let a := v.apply s n
  match a.res with
  | .error e => ⟨a.state, [(n, a.res)], .error e⟩
  | .ok (b, k) =>
    if b then
      match children a.state with
      | (s₂, evs, .error e) => ⟨s₂, (n, a.res) :: evs, .error e⟩
      | (s₂, evs, .ok _) => ⟨s₂, (n, a.res) :: evs, .ok k⟩
    else ⟨a.state, [(n, a.res)], .ok k⟩

/-- `impl Visitable for Ident`: a leaf. -/
def Ident.visit (v : Visitor σ K V) (i : Ident) (s : σ) : VisitOut σ K V :=
  leafVisit (.ident i) v s

/-- `impl Visitable for PathSegment`: a leaf. -/
def PathSegment.visit (v : Visitor σ K V) (ps : PathSegment) (s : σ) : VisitOut σ K V :=
  leafVisit (.pathSegment ps) v s

/-- `impl Visitable for FnHeader`: a leaf. -/
def FnHeader.visit (v : Visitor σ K V) (h : FnHeader) (s : σ) : VisitOut σ K V :=
  leafVisit (.fnHeader h) v s

/-- `impl Visitable for Constant`: a leaf. -/
def Constant.visit (v : Visitor σ K V) (c : Constant) (s : σ) : VisitOut σ K V :=
  leafVisit (.constant c) v s

/-- `impl Visitable for Path`: children are the segments, in order. -/
def Path.visit (v : Visitor σ K V) (p : Path) (s : σ) : VisitOut σ K V :=
  nodeVisit (.path p) v s
    (fun s₁ => visitList (fun seg s₂ => PathSegment.visit v seg s₂) p.segments s₁)

/-- `impl Visitable for Ty`: recurses into the nested path when the kind is
`Path`; every other kind has nothing to recurse into. -/
def Ty.visit (v : Visitor σ K V) (t : Ty) (s : σ) : VisitOut σ K V :=
  nodeVisit (.ty t) v s
    (fun s₁ =>
      match t.kind with
      | .path p => (Path.visit v p s₁).phase
      | _ => phaseDone s₁)

/-- `impl Visitable for StructField`: visits the field's identifier, then its
type. -/
def StructField.visit (v : Visitor σ K V) (f : StructField) (s : σ) : VisitOut σ K V :=
  nodeVisit (.structField f) v s
    (fun s₁ =>
      phaseThen (Ident.visit v f.ident s₁).phase
        (fun s₂ => (Ty.visit v f.ty s₂).phase))

/-- `impl Visitable for Struct`: visits the fields in order. -/
def Struct.visit (v : Visitor σ K V) (st : Struct) (s : σ) : VisitOut σ K V :=
  nodeVisit (.struct st) v s
    (fun s₁ => visitList (fun fld s₂ => StructField.visit v fld s₂) st.field s₁)

/-- `impl Visitable for Param`: visits the parameter's type. -/
def Param.visit (v : Visitor σ K V) (p : Param) (s : σ) : VisitOut σ K V :=
  nodeVisit (.param p) v s (fun s₁ => (Ty.visit v p.ty s₁).phase)

/-- `impl Visitable for FnDecl`: the source loop visits only the `inputs`
parameters, in order; the `output` return type is not visited. -/
def FnDecl.visit (v : Visitor σ K V) (d : FnDecl) (s : σ) : VisitOut σ K V :=
  nodeVisit (.fnDecl d) v s
    (fun s₁ => visitList (fun pa s₂ => Param.visit v pa s₂) d.inputs s₁)

/-- `impl Visitable for FnSig`: visits the header, then the declaration. -/
def FnSig.visit (v : Visitor σ K V) (sg : FnSig) (s : σ) : VisitOut σ K V :=
  nodeVisit (.fnSig sg) v s
    (fun s₁ =>
      phaseThen (FnHeader.visit v sg.header s₁).phase
        (fun s₂ => (FnDecl.visit v sg.decl s₂).phase))

mutual

/-- `impl Visitable for Definition`: recurses into the nested struct or
function depending on the kind tag. -/
def Definition.visit (v : Visitor σ K V) (d : Definition) (s : σ) : VisitOut σ K V :=
  nodeVisit (.definition d) v s
    (fun s₁ =>
      match d with
      | .mk _ (.struct st) => (Struct.visit v st s₁).phase
      | .mk _ (.fn f) => (Fn.visit v f s₁).phase)

/-- `impl Visitable for Fn`: visits the signature, then the body when one is
present. -/
def Fn.visit (v : Visitor σ K V) (f : Fn) (s : σ) : VisitOut σ K V :=
  nodeVisit (.fn f) v s
    (fun s₁ =>
      match f with
      | .mk sg body =>
        phaseThen (FnSig.visit v sg s₁).phase
          (fun s₂ =>
            match body with
            | some b => (Block.visit v b s₂).phase
            | none => phaseDone s₂))

/-- `impl Visitable for Expr`: recurses into the constant, variable path, or
block depending on the kind tag. -/
def Expr.visit (v : Visitor σ K V) (e : Expr) (s : σ) : VisitOut σ K V :=
  nodeVisit (.expr e) v s
    (fun s₁ =>
      match e with
      | .mk (.constant c) => (Constant.visit v c s₁).phase
      | .mk (.variable_ p) => (Path.visit v p s₁).phase
      | .mk (.block b) => (Block.visit v b s₁).phase)

/-- `impl Visitable for LocalBind`: the source matches only on the binding
kind — a `Decl` binding recurses into nothing, an `Init` binding recurses
into the initializer expression.  The binding's identifier and optional type
annotation are not visited. -/
def LocalBind.visit (v : Visitor σ K V) (l : LocalBind) (s : σ) : VisitOut σ K V :=
  nodeVisit (.localBind l) v s
    (fun s₁ =>
      match l with
      | .mk _ _ .decl => phaseDone s₁
      | .mk _ _ (.init e) => (Expr.visit v e s₁).phase)

/-- `impl Visitable for Statement`: recurses into the binding, definition, or
expression depending on the kind tag. -/
def Statement.visit (v : Visitor σ K V) (st : Statement) (s : σ) : VisitOut σ K V :=
  nodeVisit (.statement st) v s
    (fun s₁ =>
      match st with
      | .mk (.let_ l) => (LocalBind.visit v l s₁).phase
      | .mk (.def_ d) => (Definition.visit v d s₁).phase
      | .mk (.expr e) => (Expr.visit v e s₁).phase)

/-- `impl Visitable for Block`: visits the statements in sequence order. -/
def Block.visit (v : Visitor σ K V) (b : Block) (s : σ) : VisitOut σ K V :=
  nodeVisit (.block b) v s
    (fun s₁ =>
      match b with
      | .mk stmts => visitStatements v stmts s₁)

/-- The statement loop of `Block::visit`, one statement at a time. -/
def visitStatements (v : Visitor σ K V) : List Statement → σ → Phase σ K V
  | [], s => phaseDone s
  | x :: xs, s => phaseThen (Statement.visit v x s).phase (fun s₂ => visitStatements v xs s₂)

end

/-- Dispatch `visit` over the node union: visiting a wrapped node visits the
node it wraps. -/
def ASTNodeEnum.visitNode (v : Visitor σ K V) : ASTNodeEnum → σ → VisitOut σ K V
  | .ident i, s => Ident.visit v i s
  | .path p, s => Path.visit v p s
  | .pathSegment ps, s => PathSegment.visit v ps s
  | .definition d, s => Definition.visit v d s
  | .ty t, s => Ty.visit v t s
  | .struct st, s => Struct.visit v st s
  | .structField f, s => StructField.visit v f s
  | .fn f, s => Fn.visit v f s
  | .fnSig sg, s => FnSig.visit v sg s
  | .fnHeader h, s => FnHeader.visit v h s
  | .fnDecl d, s => FnDecl.visit v d s
  | .param p, s => Param.visit v p s
  | .expr e, s => Expr.visit v e s
  | .constant c, s => Constant.visit v c s
  | .localBind l, s => LocalBind.visit v l s
  | .statement st, s => Statement.visit v st s
  | .block b, s => Block.visit v b s

/-! ### Traversal invariants

`evOk` says an `apply` event succeeded.  `EventsFF` relates a run's event
list to its final result: a successful run performed only successful
applies; a failing run's event list is some successful applies followed by
exactly one failing apply — the failure that the run returned — with
nothing after it. -/

/-- Whether a recorded `apply` event succeeded. -/
def evOk (ev : VisitEvent K V) : Bool :=
  match ev.2 with
  | .ok _ => true
  | .error _ => false

/-- Every event in the list succeeded. -/
def AllOk (evs : List (VisitEvent K V)) : Prop := ∀ ev ∈ evs, evOk ev = true

/-- The event list is successful applies followed by one failing apply,
whose failure value is `e`, with no event after it. -/
def FailStops (evs : List (VisitEvent K V)) (e : V) : Prop :=
  ∃ pre nf, evs = pre ++ [(nf, Except.error e)] ∧ AllOk pre

/-- Fail-fast discipline of an event list against the run's result. -/
def EventsFF (evs : List (VisitEvent K V)) : Except V α → Prop
  | .ok _ => AllOk evs
  | .error e => FailStops evs e

/-- Fail-fast discipline of a child phase. -/
def PhaseFF (ph : Phase σ K V) : Prop := EventsFF ph.2.1 ph.2.2

/-- The uniform contract of one `visit` call, relative to what `apply`
answered for the node itself (`ar`): the node's own apply comes first; the
run is fail-fast; a failing apply ends the run at once with that failure; a
`continue = false` apply ends the run at once with its payload; and a
successful run returns exactly the payload the node's own apply produced. -/
structure VisitInv (n : ASTNodeEnum) (ar : GenericVisitApplyResult K V)
    (o : VisitOut σ K V) : Prop where
  head : ∃ rest, o.events = (n, ar) :: rest
  ff : EventsFF o.events o.res
  fail_self : ∀ e, ar = Except.error e → o.events = [(n, ar)] ∧ o.res = Except.error e
  cut_self : ∀ k, ar = Except.ok (false, k) → o.events = [(n, ar)] ∧ o.res = Except.ok k
  payload : ∀ k, o.res = Except.ok k → ∃ b, ar = Except.ok (b, k)

theorem allOk_nil : AllOk ([] : List (VisitEvent K V)) := by
  intro ev h
  cases h

theorem allOk_append {evs₁ evs₂ : List (VisitEvent K V)}
    (h₁ : AllOk evs₁) (h₂ : AllOk evs₂) : AllOk (evs₁ ++ evs₂) := by
  intro ev h
  rcases List.mem_append.mp h with h | h
  · exact h₁ ev h
  · exact h₂ ev h

theorem leafVisit_inv (n : ASTNodeEnum) (v : Visitor σ K V) (s : σ) :
    VisitInv n (v.apply s n).res (leafVisit n v s) := by
  have hv : leafVisit n v s =
      ⟨(v.apply s n).state, [(n, (v.apply s n).res)], ((v.apply s n).res).map (·.2)⟩ := rfl
  rw [hv]
  rcases h : (v.apply s n).res with e | bk
  · refine ⟨⟨[], rfl⟩, ?_, ?_, ?_, ?_⟩
    · exact ⟨[], n, rfl, allOk_nil⟩
    · intro e₂ h₂
      injection h₂ with he
      subst he
      exact ⟨rfl, rfl⟩
    · intro k h₂
      cases h₂
    · intro k h₂
      simp [Except.map] at h₂
  · obtain ⟨b, k⟩ := bk
    refine ⟨⟨[], rfl⟩, ?_, ?_, ?_, ?_⟩
    · intro ev hev
      simp only [List.mem_singleton] at hev
      simp [hev, evOk]
    · intro e₂ h₂
      cases h₂
    · intro k₂ h₂
      injection h₂ with h₃
      injection h₃ with hb hk
      subst hb hk
      exact ⟨rfl, rfl⟩
    · intro k₂ h₂
      simp only [Except.map, Except.ok.injEq] at h₂
      exact ⟨b, by rw [h₂]⟩

theorem nodeVisit_inv (n : ASTNodeEnum) (v : Visitor σ K V) (s : σ)
    (children : σ → Phase σ K V) (hch : ∀ s₁, PhaseFF (children s₁)) :
    VisitInv n (v.apply s n).res (nodeVisit n v s children) := by
  rcases h : (v.apply s n).res with e | bk
  · have hv : nodeVisit n v s children =
        ⟨(v.apply s n).state, [(n, (v.apply s n).res)], Except.error e⟩ := by
      simp [nodeVisit, h]
    rw [hv, h]
    refine ⟨⟨[], rfl⟩, ?_, ?_, ?_, ?_⟩
    · exact ⟨[], n, rfl, allOk_nil⟩
    · intro e₂ h₂
      injection h₂ with he
      subst he
      exact ⟨rfl, rfl⟩
    · intro k h₂
      cases h₂
    · intro k h₂
      cases h₂
  · obtain ⟨b, k⟩ := bk
    cases b
    · have hv : nodeVisit n v s children =
          ⟨(v.apply s n).state, [(n, (v.apply s n).res)], Except.ok k⟩ := by
        simp [nodeVisit, h]
      rw [hv, h]
      refine ⟨⟨[], rfl⟩, ?_, ?_, ?_, ?_⟩
      · intro ev hev
        simp only [List.mem_singleton] at hev
        simp [hev, evOk]
      · intro e₂ h₂
        cases h₂
      · intro k₂ h₂
        injection h₂ with h₃
        injection h₃ with _ hk
        subst hk
        exact ⟨rfl, rfl⟩
      · intro k₂ h₂
        injection h₂ with hk
        subst hk
        exact ⟨false, rfl⟩
    · have hph := hch (v.apply s n).state
      rcases hph2 : children (v.apply s n).state with ⟨s₂, evs, r⟩
      rw [hph2] at hph
      rcases r with e | u
      · have hv : nodeVisit n v s children =
            ⟨s₂, (n, (v.apply s n).res) :: evs, Except.error e⟩ := by
          simp [nodeVisit, h, hph2]
        rw [hv, h]
        simp only [PhaseFF, EventsFF] at hph
        obtain ⟨pre, nf, hevs, hpre⟩ := hph
        refine ⟨⟨evs, rfl⟩, ?_, ?_, ?_, ?_⟩
        · refine ⟨(n, Except.ok (true, k)) :: pre, nf, by rw [hevs]; rfl, ?_⟩
          intro ev hev
          rcases List.mem_cons.mp hev with hev | hev
          · simp [hev, evOk]
          · exact hpre ev hev
        · intro e₂ h₂
          cases h₂
        · intro k₂ h₂
          injection h₂ with h₃
          injection h₃ with hb
          cases hb
        · intro k₂ h₂
          cases h₂
      · have hv : nodeVisit n v s children =
            ⟨s₂, (n, (v.apply s n).res) :: evs, Except.ok k⟩ := by
          simp [nodeVisit, h, hph2]
        rw [hv, h]
        simp only [PhaseFF, EventsFF] at hph
        refine ⟨⟨evs, rfl⟩, ?_, ?_, ?_, ?_⟩
        · intro ev hev
          rcases List.mem_cons.mp hev with hev | hev
          · simp [hev, evOk]
          · exact hph ev hev
        · intro e₂ h₂
          cases h₂
        · intro k₂ h₂
          injection h₂ with h₃
          injection h₃ with hb
          cases hb
        · intro k₂ h₂
          injection h₂ with hk
          subst hk
          exact ⟨true, rfl⟩

theorem phase_ff_of_eventsFF (o : VisitOut σ K V) (h : EventsFF o.events o.res) :
    PhaseFF o.phase := by
  unfold VisitOut.phase PhaseFF
  rcases hr : o.res with e | k
  · simp only [hr, EventsFF] at h ⊢
    exact h
  · simp only [hr, EventsFF] at h ⊢
    exact h

theorem phaseDone_ff (s : σ) : PhaseFF (phaseDone s : Phase σ K V) := by
  simp only [phaseDone, PhaseFF, EventsFF]
  exact allOk_nil

theorem phaseThen_ff (p : Phase σ K V) (f : σ → Phase σ K V)
    (hp : PhaseFF p) (hf : ∀ s, PhaseFF (f s)) : PhaseFF (phaseThen p f) := by
  rcases p with ⟨s, evs, r⟩
  rcases r with e | u
  · simpa [phaseThen, PhaseFF] using hp
  · simp only [PhaseFF, EventsFF] at hp
    rcases hq : f s with ⟨s₂, evs₂, r₂⟩
    have hf₂ := hf s
    rw [hq] at hf₂
    rcases r₂ with e | u₂
    · simp only [PhaseFF, EventsFF] at hf₂
      obtain ⟨pre, nf, hevs, hpre⟩ := hf₂
      simp only [phaseThen, hq, PhaseFF, EventsFF]
      exact ⟨evs ++ pre, nf, by simp [hevs], allOk_append hp hpre⟩
    · simp only [PhaseFF, EventsFF] at hf₂
      simp only [phaseThen, hq, PhaseFF, EventsFF]
      exact allOk_append hp hf₂

theorem visitList_ff (visitOne : α → σ → VisitOut σ K V)
    (hone : ∀ x s, EventsFF (visitOne x s).events (visitOne x s).res)
    (l : List α) (s : σ) : PhaseFF (visitList visitOne l s) := by
  induction l generalizing s with
  | nil => exact phaseDone_ff s
  | cons x xs ih =>
    exact phaseThen_ff _ _ (phase_ff_of_eventsFF _ (hone x s)) (fun s₂ => ih s₂)

/-! ### The contract, node kind by node kind -/

theorem ident_visit_inv (v : Visitor σ K V) (i : Ident) (s : σ) :
    VisitInv (.ident i) (v.apply s (.ident i)).res (Ident.visit v i s) :=
  leafVisit_inv _ v s

theorem pathSegment_visit_inv (v : Visitor σ K V) (ps : PathSegment) (s : σ) :
    VisitInv (.pathSegment ps) (v.apply s (.pathSegment ps)).res (PathSegment.visit v ps s) :=
  leafVisit_inv _ v s

theorem fnHeader_visit_inv (v : Visitor σ K V) (h : FnHeader) (s : σ) :
    VisitInv (.fnHeader h) (v.apply s (.fnHeader h)).res (FnHeader.visit v h s) :=
  leafVisit_inv _ v s

theorem constant_visit_inv (v : Visitor σ K V) (c : Constant) (s : σ) :
    VisitInv (.constant c) (v.apply s (.constant c)).res (Constant.visit v c s) :=
  leafVisit_inv _ v s

theorem path_visit_inv (v : Visitor σ K V) (p : Path) (s : σ) :
    VisitInv (.path p) (v.apply s (.path p)).res (Path.visit v p s) :=
  nodeVisit_inv _ v s _ (fun s₁ =>
    visitList_ff _ (fun seg s₂ => (pathSegment_visit_inv v seg s₂).ff) p.segments s₁)

theorem ty_visit_inv (v : Visitor σ K V) (t : Ty) (s : σ) :
    VisitInv (.ty t) (v.apply s (.ty t)).res (Ty.visit v t s) :=
  nodeVisit_inv _ v s _ (fun s₁ =>
    match t with
    | .mk (.path p) => phase_ff_of_eventsFF _ (path_visit_inv v p s₁).ff
    | .mk .void => phaseDone_ff s₁
    | .mk .int => phaseDone_ff s₁
    | .mk .float => phaseDone_ff s₁
    | .mk .bool => phaseDone_ff s₁
    | .mk .string => phaseDone_ff s₁)

theorem structField_visit_inv (v : Visitor σ K V) (f : StructField) (s : σ) :
    VisitInv (.structField f) (v.apply s (.structField f)).res (StructField.visit v f s) :=
  nodeVisit_inv _ v s _ (fun s₁ =>
    phaseThen_ff _ _ (phase_ff_of_eventsFF _ (ident_visit_inv v f.ident s₁).ff)
      (fun s₂ => phase_ff_of_eventsFF _ (ty_visit_inv v f.ty s₂).ff))

theorem struct_visit_inv (v : Visitor σ K V) (st : Struct) (s : σ) :
    VisitInv (.struct st) (v.apply s (.struct st)).res (Struct.visit v st s) :=
  nodeVisit_inv _ v s _ (fun s₁ =>
    visitList_ff _ (fun fld s₂ => (structField_visit_inv v fld s₂).ff) st.field s₁)

theorem param_visit_inv (v : Visitor σ K V) (p : Param) (s : σ) :
    VisitInv (.param p) (v.apply s (.param p)).res (Param.visit v p s) :=
  nodeVisit_inv _ v s _ (fun s₁ => phase_ff_of_eventsFF _ (ty_visit_inv v p.ty s₁).ff)

theorem fnDecl_visit_inv (v : Visitor σ K V) (d : FnDecl) (s : σ) :
    VisitInv (.fnDecl d) (v.apply s (.fnDecl d)).res (FnDecl.visit v d s) :=
  nodeVisit_inv _ v s _ (fun s₁ =>
    visitList_ff _ (fun pa s₂ => (param_visit_inv v pa s₂).ff) d.inputs s₁)

theorem fnSig_visit_inv (v : Visitor σ K V) (sg : FnSig) (s : σ) :
    VisitInv (.fnSig sg) (v.apply s (.fnSig sg)).res (FnSig.visit v sg s) :=
  nodeVisit_inv _ v s _ (fun s₁ =>
    phaseThen_ff _ _ (phase_ff_of_eventsFF _ (fnHeader_visit_inv v sg.header s₁).ff)
      (fun s₂ => phase_ff_of_eventsFF _ (fnDecl_visit_inv v sg.decl s₂).ff))

mutual

theorem definition_visit_inv (v : Visitor σ K V) (d : Definition) (s : σ) :
    VisitInv (.definition d) (v.apply s (.definition d)).res (Definition.visit v d s) :=
  match d with
  | .mk _ (.struct st) =>
    nodeVisit_inv _ v s _ (fun s₁ => phase_ff_of_eventsFF _ (struct_visit_inv v st s₁).ff)
  | .mk _ (.fn f) =>
    nodeVisit_inv _ v s _ (fun s₁ => phase_ff_of_eventsFF _ (fn_visit_inv v f s₁).ff)

theorem fn_visit_inv (v : Visitor σ K V) (f : Fn) (s : σ) :
    VisitInv (.fn f) (v.apply s (.fn f)).res (Fn.visit v f s) :=
  match f with
  | .mk sg (some b) =>
    nodeVisit_inv _ v s _ (fun s₁ =>
      phaseThen_ff _ _ (phase_ff_of_eventsFF _ (fnSig_visit_inv v sg s₁).ff)
        (fun s₂ => phase_ff_of_eventsFF _ (block_visit_inv v b s₂).ff))
  | .mk sg none =>
    nodeVisit_inv _ v s _ (fun s₁ =>
      phaseThen_ff _ _ (phase_ff_of_eventsFF _ (fnSig_visit_inv v sg s₁).ff)
        (fun s₂ => phaseDone_ff s₂))

theorem expr_visit_inv (v : Visitor σ K V) (e : Expr) (s : σ) :
    VisitInv (.expr e) (v.apply s (.expr e)).res (Expr.visit v e s) :=
  match e with
  | .mk (.constant c) =>
    nodeVisit_inv _ v s _ (fun s₁ => phase_ff_of_eventsFF _ (constant_visit_inv v c s₁).ff)
  | .mk (.variable_ p) =>
    nodeVisit_inv _ v s _ (fun s₁ => phase_ff_of_eventsFF _ (path_visit_inv v p s₁).ff)
  | .mk (.block b) =>
    nodeVisit_inv _ v s _ (fun s₁ => phase_ff_of_eventsFF _ (block_visit_inv v b s₁).ff)

theorem localBind_visit_inv (v : Visitor σ K V) (l : LocalBind) (s : σ) :
    VisitInv (.localBind l) (v.apply s (.localBind l)).res (LocalBind.visit v l s) :=
  match l with
  | .mk _ _ .decl =>
    nodeVisit_inv _ v s _ (fun s₁ => phaseDone_ff s₁)
  | .mk _ _ (.init e) =>
    nodeVisit_inv _ v s _ (fun s₁ => phase_ff_of_eventsFF _ (expr_visit_inv v e s₁).ff)

theorem statement_visit_inv (v : Visitor σ K V) (st : Statement) (s : σ) :
    VisitInv (.statement st) (v.apply s (.statement st)).res (Statement.visit v st s) :=
  match st with
  | .mk (.let_ l) =>
    nodeVisit_inv _ v s _ (fun s₁ => phase_ff_of_eventsFF _ (localBind_visit_inv v l s₁).ff)
  | .mk (.def_ d) =>
    nodeVisit_inv _ v s _ (fun s₁ => phase_ff_of_eventsFF _ (definition_visit_inv v d s₁).ff)
  | .mk (.expr e) =>
    nodeVisit_inv _ v s _ (fun s₁ => phase_ff_of_eventsFF _ (expr_visit_inv v e s₁).ff)

theorem block_visit_inv (v : Visitor σ K V) (b : Block) (s : σ) :
    VisitInv (.block b) (v.apply s (.block b)).res (Block.visit v b s) :=
  match b with
  | .mk stmts =>
    nodeVisit_inv _ v s _ (fun s₁ => visitStatements_ff v stmts s₁)

theorem visitStatements_ff (v : Visitor σ K V) (l : List Statement) (s : σ) :
    PhaseFF (visitStatements v l s) :=
  match l with
  | [] => phaseDone_ff s
  | x :: xs =>
    phaseThen_ff _ _ (phase_ff_of_eventsFF _ (statement_visit_inv v x s).ff)
      (fun s₂ => visitStatements_ff v xs s₂)

end

/-- The per-kind contract, joined over the node union. -/
theorem visitNode_inv (v : Visitor σ K V) (n : ASTNodeEnum) (s : σ) :
    VisitInv n (v.apply s n).res (ASTNodeEnum.visitNode v n s) :=
  match n with
  | .ident i => ident_visit_inv v i s
  | .path p => path_visit_inv v p s
  | .pathSegment ps => pathSegment_visit_inv v ps s
  | .definition d => definition_visit_inv v d s
  | .ty t => ty_visit_inv v t s
  | .struct st => struct_visit_inv v st s
  | .structField f => structField_visit_inv v f s
  | .fn f => fn_visit_inv v f s
  | .fnSig sg => fnSig_visit_inv v sg s
  | .fnHeader h => fnHeader_visit_inv v h s
  | .fnDecl d => fnDecl_visit_inv v d s
  | .param p => param_visit_inv v p s
  | .expr e => expr_visit_inv v e s
  | .constant c => constant_visit_inv v c s
  | .localBind l => localBind_visit_inv v l s
  | .statement st => statement_visit_inv v st s
  | .block b => block_visit_inv v b s

/-! ### Concrete visitors and a tree with one node of every kind -/

/-- The kind of a node, for recording traversal traces. -/
inductive NodeTag where
  | ident
  | path
  | pathSegment
  | definition
  | ty
  | struct
  | structField
  | fn
  | fnSig
  | fnHeader
  | fnDecl
  | param
  | expr
  | constant
  | localBind
  | statement
  | block
deriving DecidableEq, BEq

/-- The kind tag of a node of the union. -/
def tagOf : ASTNodeEnum → NodeTag
  | .ident _ => .ident
  | .path _ => .path
  | .pathSegment _ => .pathSegment
  | .definition _ => .definition
  | .ty _ => .ty
  | .struct _ => .struct
  | .structField _ => .structField
  | .fn _ => .fn
  | .fnSig _ => .fnSig
  | .fnHeader _ => .fnHeader
  | .fnDecl _ => .fnDecl
  | .param _ => .param
  | .expr _ => .expr
  | .constant _ => .constant
  | .localBind _ => .localBind
  | .statement _ => .statement
  | .block _ => .block

/-- A visitor that records the kind of every node it is applied to and always
answers `Ok((true, None))`. -/
def recordingVisitor : Visitor (List NodeTag) Unit Unit :=
  ⟨fun s n => ⟨s ++ [tagOf n], Except.ok (true, none)⟩⟩

/-- Like `recordingVisitor`, but answers continue = false on `Struct` nodes. -/
def cuttingVisitor : Visitor (List NodeTag) Unit Unit :=
  ⟨fun s n =>
    match n with
    | .struct _ => ⟨s ++ [tagOf n], Except.ok (false, none)⟩
    | _ => ⟨s ++ [tagOf n], Except.ok (true, none)⟩⟩

/-- A visitor that fails on `Constant` nodes and continues everywhere else. -/
def failingVisitor : Visitor Unit Unit String :=
  ⟨fun s n =>
    match n with
    | .constant _ => ⟨s, Except.error "boom"⟩
    | _ => ⟨s, Except.ok (true, none)⟩⟩

/-- A distinct number per node kind, for the payload-channel check. -/
def tagIndex : NodeTag → Nat
  | .ident => 0
  | .path => 1
  | .pathSegment => 2
  | .definition => 3
  | .ty => 4
  | .struct => 5
  | .structField => 6
  | .fn => 7
  | .fnSig => 8
  | .fnHeader => 9
  | .fnDecl => 10
  | .param => 11
  | .expr => 12
  | .constant => 13
  | .localBind => 14
  | .statement => 15
  | .block => 16

/-- A visitor that returns a different payload for every node kind. -/
def payloadVisitor : Visitor Unit Nat Unit :=
  ⟨fun s n => ⟨s, Except.ok (true, some (tagIndex (tagOf n)))⟩⟩

def tyInt : Ty := ⟨.int⟩
def tyBool : Ty := ⟨.bool⟩
def tyVoid : Ty := ⟨.void⟩
def tyPathT : Ty := ⟨.path ⟨[⟨"T"⟩]⟩⟩

/-- `struct S { f: int }` -/
def structDef : Definition := .mk "S" (.struct ⟨[⟨"f", tyInt⟩]⟩)

/-- `let v: T = 5;` — a binding with a type annotation and an initializer. -/
def innerBind : LocalBind := .mk "v" (some tyPathT) (.init ⟨.constant ⟨.int 5⟩⟩)

/-- The body of the function definition below. -/
def fnBody : Block := .mk [⟨.let_ innerBind⟩]

/-- `fn g(p: bool) -> void { let v: T = 5; }` -/
def fnDef : Definition :=
  .mk "g" (.fn (.mk ⟨⟨false, false⟩, ⟨[⟨tyBool⟩], tyVoid⟩⟩ (some fnBody)))

/-- The statement `x;` referencing a variable through a path. -/
def exprStmt : Statement := ⟨.expr ⟨.variable_ ⟨[⟨"x"⟩]⟩⟩⟩

/-- A block containing at least one node of every kind of the node model. -/
def oneOfEachBlock : Block := .mk [⟨.def_ structDef⟩, ⟨.def_ fnDef⟩, exprStmt]

/-! ### Counting the `Ty` nodes a tree owns

A `Ty` owns no further `Ty` (a `Path` contains only segments), so every
`Ty` counts one.  These counters follow the ownership structure of the data
model, not the traversal. -/

def Struct.tyCount (st : Struct) : Nat := st.field.length

def FnDecl.tyCount (d : FnDecl) : Nat := d.inputs.length + 1

mutual

def Definition.tyCount : Definition → Nat
  | .mk _ (.struct st) => st.tyCount
  | .mk _ (.fn f) => f.tyCount

def Fn.tyCount : Fn → Nat
  | .mk sg (some b) => sg.decl.tyCount + b.tyCount
  | .mk sg none => sg.decl.tyCount

def Expr.tyCount : Expr → Nat
  | .mk (.variable_ _) => 0
  | .mk (.constant _) => 0
  | .mk (.block b) => b.tyCount

def LocalBind.tyCount : LocalBind → Nat
  | .mk _ oty kind =>
    (match oty with
      | some _ => 1
      | none => 0) +
    (match kind with
      | .decl => 0
      | .init e => e.tyCount)

def Statement.tyCount : Statement → Nat
  | .mk (.let_ l) => l.tyCount
  | .mk (.def_ d) => d.tyCount
  | .mk (.expr e) => e.tyCount

def Block.tyCount : Block → Nat
  | .mk stmts => tyCountStatements stmts

def tyCountStatements : List Statement → Nat
  | [] => 0
  | x :: xs => x.tyCount + tyCountStatements xs

end

/-! ### The claims about the traversal -/

/-- Claim C1: the spec says that running a visitor whose `apply` always
succeeds with continue = true over a tree containing one instance of each
node kind applies the visitor to every node exactly once, depth first,
children after self, children in the order of the data-model table.  The
code does not do this: over `oneOfEachBlock` the recorded trace has exactly
two `Ty` events although the tree owns four `Ty` nodes — the traversal
never applies the visitor to `FnDecl`'s return type nor to `LocalBind`'s
type annotation (nor to `LocalBind`'s identifier). -/
theorem traversal_trace_misses_ty_nodes :
    (ASTNodeEnum.visitNode recordingVisitor (.block oneOfEachBlock) []).state =
      [.block, .statement, .definition, .struct, .structField, .ident, .ty,
       .statement, .definition, .fn, .fnSig, .fnHeader, .fnDecl, .param, .ty,
       .block, .statement, .localBind, .expr, .constant,
       .statement, .expr, .path, .pathSegment] ∧
    ((ASTNodeEnum.visitNode recordingVisitor (.block oneOfEachBlock) []).state.count
      NodeTag.ty = 2) ∧
    Block.tyCount oneOfEachBlock = 4 := by
  refine ⟨by decide, by decide, by decide⟩

/-- Claim C2: the spec says a `FnDecl` visits its parameters and then its
return type, and a `LocalBind` visits its identifier, its type annotation
when present, and its initializer when present.  The code visits only the
parameters of a `FnDecl` (the `int` return type below produces no event),
and nothing of a `Decl`-kind `LocalBind` (neither its identifier nor its
present type annotation produce an event). -/
theorem fnDecl_localBind_children_actual :
    (FnDecl.visit recordingVisitor ⟨[⟨tyBool⟩], tyInt⟩ []).events =
      [(.fnDecl ⟨[⟨tyBool⟩], tyInt⟩, Except.ok (true, none)),
       (.param ⟨tyBool⟩, Except.ok (true, none)),
       (.ty tyBool, Except.ok (true, none))] ∧
    (LocalBind.visit recordingVisitor (.mk "x" (some tyInt) .decl) []).events =
      [(.localBind (.mk "x" (some tyInt) .decl), Except.ok (true, none))] :=
  ⟨rfl, rfl⟩

/-- Claim C3: fail-fast error propagation — whenever some `apply` call of a
traversal failed, the top-level `visit` returns that same failure, the
failing apply is the last apply the traversal performed (no node positioned
after it is applied), and every apply before it succeeded. -/
theorem visit_fail_fast (v : Visitor σ K V) (n : ASTNodeEnum) (s : σ)
    (h : ∃ ev ∈ (ASTNodeEnum.visitNode v n s).events, evOk ev = false) :
    ∃ e pre nf, (ASTNodeEnum.visitNode v n s).res = Except.error e ∧
      (ASTNodeEnum.visitNode v n s).events = pre ++ [(nf, Except.error e)] ∧
      AllOk pre := by
  have hinv := visitNode_inv v n s
  have hff := hinv.ff
  rcases hr : (ASTNodeEnum.visitNode v n s).res with e | k
  · rw [hr] at hff
    simp only [EventsFF, FailStops] at hff
    obtain ⟨pre, nf, hevs, hpre⟩ := hff
    exact ⟨e, pre, nf, rfl, hevs, hpre⟩
  · rw [hr] at hff
    simp only [EventsFF] at hff
    obtain ⟨ev, hev, hbad⟩ := h
    rw [hff ev hev] at hbad
    cases hbad

/-- Closed instance of claim C3: `failingVisitor` fails at the `Constant`
nested eight levels deep in `oneOfEachBlock`; the traversal returns that
failure, ends at the failing apply, and everything before it succeeded. -/
theorem visit_fail_fast_witness :
    (∃ ev ∈ (ASTNodeEnum.visitNode failingVisitor (.block oneOfEachBlock) ()).events,
      evOk ev = false) ∧
    ∃ e pre nf,
      (ASTNodeEnum.visitNode failingVisitor (.block oneOfEachBlock) ()).res =
        Except.error e ∧
      (ASTNodeEnum.visitNode failingVisitor (.block oneOfEachBlock) ()).events =
        pre ++ [(nf, Except.error e)] ∧
      AllOk pre :=
  ⟨by decide, visit_fail_fast failingVisitor (.block oneOfEachBlock) () (by decide)⟩

/-- Claim C4: short-circuit — an `apply` answering continue = false at a
node produces no apply call at all for that node's descendants (the node's
own apply is the subtree's only event), and the rest of the tree is still
visited normally: over `oneOfEachBlock`, cutting at the `Struct` node skips
exactly its field (and the field's identifier and type) while every other
node, including the struct's siblings and their descendants, is still
applied in order. -/
theorem visit_short_circuit :
    (∀ (σ K V : Type) (v : Visitor σ K V) (n : ASTNodeEnum) (s : σ) (k : Option K),
      (v.apply s n).res = Except.ok (false, k) →
      (ASTNodeEnum.visitNode v n s).events = [(n, Except.ok (false, k))] ∧
      (ASTNodeEnum.visitNode v n s).res = Except.ok k) ∧
    (ASTNodeEnum.visitNode cuttingVisitor (.block oneOfEachBlock) []).state =
      [.block, .statement, .definition, .struct,
       .statement, .definition, .fn, .fnSig, .fnHeader, .fnDecl, .param, .ty,
       .block, .statement, .localBind, .expr, .constant,
       .statement, .expr, .path, .pathSegment] := by
  constructor
  · intro σ K V v n s k h
    have hc := (visitNode_inv v n s).cut_self k h
    rw [h] at hc
    exact hc
  · decide

/-- Closed instance of claim C4: cutting at a concrete `Struct` node makes
its own apply the only event of its subtree. -/
theorem visit_short_circuit_witness :
    (cuttingVisitor.apply [] (.struct ⟨[⟨"f", tyInt⟩]⟩)).res =
      Except.ok (false, none) ∧
    ((ASTNodeEnum.visitNode cuttingVisitor (.struct ⟨[⟨"f", tyInt⟩]⟩) []).events =
      [(.struct ⟨[⟨"f", tyInt⟩]⟩, Except.ok (false, none))] ∧
      (ASTNodeEnum.visitNode cuttingVisitor (.struct ⟨[⟨"f", tyInt⟩]⟩) []).res =
        Except.ok none) :=
  ⟨rfl, visit_short_circuit.1 _ _ _ cuttingVisitor (.struct ⟨[⟨"f", tyInt⟩]⟩) [] none rfl⟩

/-- Claim C5: the payload channel — a successful top-level `visit` returns
exactly the optional payload that the visitor's own `apply` produced for
the visited node itself (the node's apply is the traversal's first event),
never a payload substituted or aggregated from the children. -/
theorem visit_payload_channel (v : Visitor σ K V) (n : ASTNodeEnum) (s : σ)
    (k : Option K) (h : (ASTNodeEnum.visitNode v n s).res = Except.ok k) :
    ∃ b, (v.apply s n).res = Except.ok (b, k) ∧
      ∃ rest, (ASTNodeEnum.visitNode v n s).events =
        (n, Except.ok (b, k)) :: rest := by
  have hinv := visitNode_inv v n s
  obtain ⟨b, hb⟩ := hinv.payload k h
  obtain ⟨rest, hrest⟩ := hinv.head
  rw [hb] at hrest
  exact ⟨b, hb, rest, hrest⟩

/-- Closed instance of claim C5: with a visitor producing a different
payload for every node kind, visiting the `oneOfEachBlock` tree returns the
payload its own apply produced for the block (16), not any payload of a
descendant. -/
theorem visit_payload_channel_witness :
    (ASTNodeEnum.visitNode payloadVisitor (.block oneOfEachBlock) ()).res =
      Except.ok (some 16) ∧
    ∃ b, (payloadVisitor.apply () (.block oneOfEachBlock)).res =
        Except.ok (b, some 16) ∧
      ∃ rest, (ASTNodeEnum.visitNode payloadVisitor (.block oneOfEachBlock) ()).events =
        (.block oneOfEachBlock, Except.ok (b, some 16)) :: rest :=
  ⟨rfl, visit_payload_channel payloadVisitor (.block oneOfEachBlock) () (some 16) rfl⟩

end Ast

/-! ## The path/name model

`blastf_name::module::Path` and `name::module_path::ModulePath` are
embedded separately, each from its own source file.  `get_root`, `get_last`
and `pop_root` panic on an empty path in the source; they are embedded as
`Option`-returning operations whose `none` is the panic. -/

/-- The reference join of segment texts: segments joined with `::`, in
order, no leading or trailing separator.  This is the spec's description of
the display form, used to check the implementations' fold. -/
def sepJoin : List String → String
  | [] => ""
  | [x] => x
  | x :: y :: xs => x ++ "::" ++ sepJoin (y :: xs)

/-- The tail of a join: `::` before every element. -/
def sepJoinTail : List String → String
  | [] => ""
  | x :: xs => "::" ++ x ++ sepJoinTail xs

theorem sepJoin_cons (x : String) (xs : List String) :
    sepJoin (x :: xs) = x ++ sepJoinTail xs := by
  induction xs generalizing x with
  | nil => simp [sepJoin, sepJoinTail]
  | cons y ys ih =>
    simp only [sepJoin, sepJoinTail, ih y, String.append_assoc]

theorem foldl_sep (f : α → String) (l : List α) (acc : String) :
    l.foldl (fun a x => a ++ "::" ++ f x) acc = acc ++ sepJoinTail (l.map f) := by
  induction l generalizing acc with
  | nil => simp [sepJoinTail]
  | cons x xs ih =>
    rw [List.foldl_cons, ih, List.map_cons, sepJoinTail]
    simp [String.append_assoc]

namespace BlastfName

/-- A segment of a path, `foo` in `root::foo::bar`. -/
structure PathSegment where
  ident : String

/-- A path: the location of a module, a series of segments separated by
`::`, e.g. `root::foo::bar`. -/
structure Path where
  segments : List PathSegment

/-- Create a new, empty path. -/
def Path.new : Path := ⟨[]⟩

/-- Push an ident segment onto the path. -/
def Path.push (p : Path) (ident : String) : Path :=
  ⟨p.segments ++ [⟨ident⟩]⟩

/-- The root (first) segment of the path; the source panics on an empty
path, embedded as `none`. -/
def Path.get_root (p : Path) : Option String :=
  p.segments.head?.map PathSegment.ident

/-- The last segment of the path; the source panics on an empty path,
embedded as `none`. -/
def Path.get_last (p : Path) : Option String :=
  p.segments.getLast?.map PathSegment.ident

/-- Pop the root segment off the path (`Vec::remove(0)`); the source panics
on an empty path, embedded as `none`. -/
def Path.pop_root (p : Path) : Option Path :=
  match p.segments with
  | [] => none
  | _ :: rest => some ⟨rest⟩

/-- Extend this path with another path, appending its segments in order. -/
def Path.extend (p : Path) (other : Path) : Path :=
  ⟨p.segments ++ other.segments⟩

/-- The display fold of the source: write each segment, preceded by `::`
for every segment but the first. -/
def Path.display (p : Path) : String :=
  match p.segments with
  | [] => ""
  | s₀ :: rest => rest.foldl (fun acc seg => acc ++ "::" ++ seg.ident) s₀.ident

theorem path_display_eq (p : Path) :
    p.display = sepJoin (p.segments.map PathSegment.ident) := by
  obtain ⟨l⟩ := p
  cases l with
  | nil => rfl
  | cons s₀ rest =>
    show (rest.foldl (fun acc seg => acc ++ "::" ++ seg.ident) s₀.ident) = _
    rw [foldl_sep PathSegment.ident rest s₀.ident, List.map_cons,
      sepJoin_cons s₀.ident (rest.map PathSegment.ident)]

/-- A name: the unique identifier for a definition — an identifier, an
owning path, and a unique numeric id (`usize` embedded as `Nat`). -/
structure Name where
  ident : String
  path : Path
  id : Nat

/-- Create a new name.  A pure constructor: no uniqueness check, no other
effect. -/
def Name.new (ident : String) (path : Path) (id : Nat) : Name :=
  ⟨ident, path, id⟩

/-- `write!(f, "{}::{}_{}", self.path, self.ident, self.id)`. -/
def Name.display (nm : Name) : String :=
  nm.path.display ++ "::" ++ nm.ident ++ "_" ++ Nat.repr nm.id

end BlastfName

/-- A segment of a module path, `foo` in `root::foo::bar` — the second copy
of the path model, from `name/src/module_path.rs`. -/
structure ModulePathSegment where
  ident : String

/-- A module path: the location of a module, a series of segments separated
by `::`. -/
structure ModulePath where
  segments : List ModulePathSegment

/-- Create a new, empty path. -/
def ModulePath.new : ModulePath := ⟨[]⟩

/-- Push an ident segment onto the path. -/
def ModulePath.push (p : ModulePath) (ident : String) : ModulePath :=
  ⟨p.segments ++ [⟨ident⟩]⟩

/-- The root (first) segment; the source panics on an empty path, embedded
as `none`. -/
def ModulePath.get_root (p : ModulePath) : Option String :=
  p.segments.head?.map ModulePathSegment.ident

/-- The last segment; the source panics on an empty path, embedded as
`none`. -/
def ModulePath.get_last (p : ModulePath) : Option String :=
  p.segments.getLast?.map ModulePathSegment.ident

/-- Pop the root segment off the path; the source panics on an empty path,
embedded as `none`. -/
def ModulePath.pop_root (p : ModulePath) : Option ModulePath :=
  match p.segments with
  | [] => none
  | _ :: rest => some ⟨rest⟩

/-- Extend this path with another path, appending its segments in order. -/
def ModulePath.extend (p : ModulePath) (other : ModulePath) : ModulePath :=
  ⟨p.segments ++ other.segments⟩

/-- The display fold of the source: write each segment, preceded by `::`
for every segment but the first. -/
def ModulePath.display (p : ModulePath) : String :=
  match p.segments with
  | [] => ""
  | s₀ :: rest => rest.foldl (fun acc seg => acc ++ "::" ++ seg.ident) s₀.ident

theorem modulePath_display_eq (p : ModulePath) :
    p.display = sepJoin (p.segments.map ModulePathSegment.ident) := by
  obtain ⟨l⟩ := p
  cases l with
  | nil => rfl
  | cons s₀ rest =>
    show (rest.foldl (fun acc seg => acc ++ "::" ++ seg.ident) s₀.ident) = _
    rw [foldl_sep ModulePathSegment.ident rest s₀.ident, List.map_cons,
      sepJoin_cons s₀.ident (rest.map ModulePathSegment.ident)]

/-- Segmentwise translation between the two path models. -/
def BlastfName.Path.toModulePath (p : BlastfName.Path) : ModulePath :=
  ⟨p.segments.map (fun seg => ⟨seg.ident⟩)⟩

namespace BlastfName

/-- Claim C6: the path algebra — `push` then `get_last` returns the pushed
segment; on a path of at least two segments, `pop_root` then `get_root`
returns the original second segment; extending by a non-empty `q` makes
`get_last` agree with `q`'s; and the display of the extension is both
paths' segments joined with `::` in order. -/
theorem path_algebra (p q : Path) (s : String) (a b : PathSegment)
    (rest : List PathSegment) :
    ((p.push s).get_last = some s) ∧
    (p.segments = a :: b :: rest →
      ∃ p₂, p.pop_root = some p₂ ∧ p₂.get_root = some b.ident) ∧
    (q.segments ≠ [] → (p.extend q).get_last = q.get_last) ∧
    ((p.extend q).display = sepJoin ((p.segments ++ q.segments).map PathSegment.ident)) := by
  obtain ⟨l⟩ := p
  refine ⟨?_, ?_, ?_, ?_⟩
  · simp [Path.push, Path.get_last]
  · intro h
    simp only at h
    subst h
    exact ⟨⟨b :: rest⟩, rfl, rfl⟩
  · intro h
    simp only [Path.extend, Path.get_last]
    rw [List.getLast?_append_of_ne_nil _ h]
  · exact path_display_eq _

/-- Closed instance of claim C6 at `root::mid` extended by `leaf`, with
`w` pushed. -/
theorem path_algebra_witness :
    ((Path.mk [⟨"root"⟩, ⟨"mid"⟩]).push "w").get_last = some "w" ∧
    (∃ p₂, (Path.mk [⟨"root"⟩, ⟨"mid"⟩]).pop_root = some p₂ ∧
      p₂.get_root = some "mid") ∧
    ((Path.mk [⟨"root"⟩, ⟨"mid"⟩]).extend (Path.mk [⟨"leaf"⟩])).get_last =
      (Path.mk [⟨"leaf"⟩]).get_last ∧
    ((Path.mk [⟨"root"⟩, ⟨"mid"⟩]).extend (Path.mk [⟨"leaf"⟩])).display =
      sepJoin ["root", "mid", "leaf"] := by
  have h := path_algebra (Path.mk [⟨"root"⟩, ⟨"mid"⟩]) (Path.mk [⟨"leaf"⟩]) "w"
    ⟨"root"⟩ ⟨"mid"⟩ []
  exact ⟨h.1, h.2.1 rfl, h.2.2.1 (by simp), h.2.2.2⟩

/-- Claim C7: `get_root`, `get_last` and `pop_root` succeed exactly when
the path is non-empty (the empty-path panic is the only failure), and
`push` succeeds on every path, including the empty one, appending its
segment. -/
theorem path_precondition_safety (p : Path) (s : String) :
    (p.get_root.isSome ↔ p.segments ≠ []) ∧
    (p.get_last.isSome ↔ p.segments ≠ []) ∧
    (p.pop_root.isSome ↔ p.segments ≠ []) ∧
    (p.push s).segments = p.segments ++ [⟨s⟩] := by
  obtain ⟨l⟩ := p
  cases l with
  | nil => refine ⟨by simp [Path.get_root], by simp [Path.get_last],
      by simp [Path.pop_root], rfl⟩
  | cons x xs => refine ⟨by simp [Path.get_root], by simp [Path.get_last],
      by simp [Path.pop_root], rfl⟩

/-- Claim C8: `Name::new` is a pure constructor — the accessors return
exactly the arguments given — and the display form is exactly the path's
display, `::`, the identifier, `_`, and the decimal id. -/
theorem name_new_accessors_display (i : String) (p : Path) (n : Nat) :
    (Name.new i p n).ident = i ∧
    (Name.new i p n).path = p ∧
    (Name.new i p n).id = n ∧
    (Name.new i p n).display =
      sepJoin (p.segments.map PathSegment.ident) ++ "::" ++ i ++ "_" ++ Nat.repr n := by
  refine ⟨rfl, rfl, rfl, ?_⟩
  simp only [Name.new, Name.display, path_display_eq]

/-- Claim C10: `Path::new()` is the empty path at the public interface:
zero segments, and its display succeeds with the empty string — display is
total on every path (it is the `::`-join of the segments) and in
particular hits no empty-path failure, unlike `get_root`, `get_last` and
`pop_root`, which all fail on the empty path. -/
theorem path_new_empty_display :
    Path.new.segments = ([] : List PathSegment) ∧
    Path.new.display = "" ∧
    Path.new.get_root = none ∧
    Path.new.get_last = none ∧
    Path.new.pop_root = none ∧
    ∀ p : Path, p.display = sepJoin (p.segments.map PathSegment.ident) :=
  ⟨rfl, rfl, rfl, rfl, rfl, fun p => path_display_eq p⟩

end BlastfName

/-- Claim C9: the two path implementations are behaviorally identical —
under the segmentwise translation, `new`, `push`, `get_root`, `get_last`,
`pop_root`, `extend` and display all agree. -/
theorem path_modulePath_equiv (p q : BlastfName.Path) (s : String) :
    BlastfName.Path.new.toModulePath = ModulePath.new ∧
    (p.push s).toModulePath = p.toModulePath.push s ∧
    p.toModulePath.get_root = p.get_root ∧
    p.toModulePath.get_last = p.get_last ∧
    (p.pop_root.map BlastfName.Path.toModulePath) = p.toModulePath.pop_root ∧
    (p.extend q).toModulePath = p.toModulePath.extend q.toModulePath ∧
    p.toModulePath.display = p.display := by
  obtain ⟨l⟩ := p
  refine ⟨rfl, ?_, ?_, ?_, ?_, ?_, ?_⟩
  · simp [BlastfName.Path.push, BlastfName.Path.toModulePath, ModulePath.push]
  · simp only [BlastfName.Path.toModulePath, ModulePath.get_root,
      BlastfName.Path.get_root, List.head?_map, Option.map_map]
    rfl
  · simp only [BlastfName.Path.toModulePath, ModulePath.get_last,
      BlastfName.Path.get_last, List.getLast?_map, Option.map_map]
    rfl
  · cases l with
    | nil => rfl
    | cons x xs => rfl
  · simp [BlastfName.Path.extend, BlastfName.Path.toModulePath, ModulePath.extend]
  · rw [modulePath_display_eq, BlastfName.path_display_eq]
    simp only [BlastfName.Path.toModulePath, List.map_map]
    rfl
